import Mathlib

/-!
Verification of the DBFZ-Raid-Enabler binary patching core.

Shallow embedding of `src/core/patcher.py` (class `BinaryPatcher`:
`replace_pattern`, `create_raid_patches`, `patch_executable`,
`verify_patch`) and `src/file_manager/backup.py`
(`BackupManager.detect_current_patch`).

Modelling conventions:
* a byte buffer (`bytearray` / `bytes`) is a `List Nat` of byte values;
* a parsed pattern matcher (one space-separated token of the pattern
  string) is an `Option Nat`: `none` models the `"??"` wildcard, `some b`
  models an exact hex byte token `int(tok, 16) = b`;
* file contents are passed explicitly; a missing/unreadable file is
  `Option.none`; a raised `OverflowError` from `int.to_bytes` is modelled
  by `Option.none` results of `serialize` and their propagation;
* Python `bytearray` slice assignment `buf[i:i+len(new)] = new` is
  `splice`: it keeps the first `i` bytes, inserts `new`, and keeps the
  bytes from position `i + len(new)` on — when `i + len(new)` exceeds the
  length this silently grows the buffer, exactly as Python does.
-/

namespace DBFZ

/-- One parsed token of a hex pattern: `none` is the `"??"` wildcard,
`some b` an exact byte. -/
abbrev Matcher := Option Nat

/-- Does one matcher accept one byte?  (Program.cs-translated inner loop of
`replace_pattern`, patcher.py lines 45-53.) -/
def matcherOk (m : Matcher) (b : Nat) : Bool :=
  match m with
  | none => true
  | some v => v == b

/-- Check the pattern against the first bytes of `l` (the inner `for j`
loop of `replace_pattern`). Returns `false` when `l` is shorter than the
pattern; the caller only invokes it at offsets where the full window
exists, matching the Python indexing. -/
def matchesFrom : List Nat → List Matcher → Bool
  | _, [] => true
  | [], _ :: _ => false
  | b :: bs, m :: ms => matcherOk m b && matchesFrom bs ms

/-- Pattern comparison at offset `i` of the buffer. -/
def matchesAt (buf : List Nat) (pat : List Matcher) (i : Nat) : Bool :=
  matchesFrom (buf.drop i) pat

/-- The linear scan of `replace_pattern` (patcher.py lines 41-59): try
offsets `i, i+1, ...` for `fuel` iterations, return the first hit. -/
def scanFrom (buf : List Nat) (pat : List Matcher) : Nat → Nat → Option Nat
  | _, 0 => none
  | i, fuel + 1 =>
    if matchesAt buf pat i then some i else scanFrom buf pat (i + 1) fuel

/-- Offset of the leftmost match of `pat` in `buf`, scanning offsets
`0 .. len(buf) - len(pat)` like Python's
`range(len(exe_data) - pattern_len + 1)` (empty when the pattern is longer
than the buffer). -/
def findPattern (buf : List Nat) (pat : List Matcher) : Option Nat :=
  if pat.length ≤ buf.length then
    scanFrom buf pat 0 (buf.length - pat.length + 1)
  else none

/-- Python `bytearray` slice assignment `buf[i:i+len(new)] = new`. -/
def splice (buf : List Nat) (i : Nat) (new : List Nat) : List Nat :=
  buf.take i ++ new ++ buf.drop (i + new.length)

/-- `BinaryPatcher.replace_pattern` (patcher.py lines 20-63): scan for the
pattern; on the first hit overwrite with `new` via slice assignment and
return the offset; return `-1` when no offset matches. -/
def replace_pattern (buf : List Nat) (pat : List Matcher) (new : List Nat) :
    Int × List Nat :=
  match findPattern buf pat with
  | some i => ((i : Int), splice buf i new)
  | none => (-1, buf)

/-! ### Patch set generation (`create_raid_patches`, patcher.py 66-112) -/

/-- 4-byte little-endian serialization of a natural number below `2^32`
(the byte list produced by Python `m.to_bytes(4, byteorder='little')`). -/
def leBytes (m : Nat) : List Nat :=
  [m % 256, m / 256 % 256, m / 65536 % 256, m / 16777216 % 256]

/-- `raid_index.to_bytes(4, byteorder='little')`: Python raises
`OverflowError` for a negative value or one that does not fit in 4 bytes;
the raise is modelled as `none`. -/
def serialize (n : Int) : Option (List Nat) :=
  if 0 ≤ n ∧ n < 4294967296 then some (leBytes n.toNat) else none

/-- Parsed form of the pattern string `"8B 81 C4 53 1D 00"`. -/
def getPattern : List Matcher :=
  [some 0x8B, some 0x81, some 0xC4, some 0x53, some 0x1D, some 0x00]

/-- Parsed form of `"66 0F 73 DA 08 66 41 0F 7E 50 04 F2 0F 11 4C"`. -/
def setPattern : List Matcher :=
  [some 0x66, some 0x0F, some 0x73, some 0xDA, some 0x08, some 0x66,
   some 0x41, some 0x0F, some 0x7E, some 0x50, some 0x04, some 0xF2,
   some 0x0F, some 0x11, some 0x4C]

/-- Parsed form of `"83 78 10 02 74 10"`. -/
def statusPattern : List Matcher :=
  [some 0x83, some 0x78, some 0x10, some 0x02, some 0x74, some 0x10]

/-- One named patch: name, pattern, replacement bytes. -/
abbrev NamedPatch := String × List Matcher × List Nat

/-- `get_replacement` (patcher.py line 90): `B8 [RAID_INDEX] 90`. -/
def get_replacement (raid_bytes : List Nat) : List Nat :=
  [0xB8] ++ raid_bytes ++ [0x90]

/-- `set_replacement` (patcher.py lines 96-100):
`41 C7 40 04 [RAID_INDEX] 90 90 90`. -/
def set_replacement (raid_bytes : List Nat) : List Nat :=
  [0x41, 0xC7, 0x40, 0x04] ++ raid_bytes ++ [0x90, 0x90, 0x90]

/-- `status_replacement` (patcher.py line 106): `39 C0 90 90`. -/
def status_replacement : List Nat := [0x39, 0xC0, 0x90, 0x90]

/-- `BinaryPatcher.create_raid_patches` (patcher.py lines 66-112).  The
Python dict preserves insertion order, so it is modelled as an ordered
list of named patches.  A serialization overflow propagates as `none`. -/
def create_raid_patches (raid_index : Int) : Option (List NamedPatch) :=
  match serialize raid_index with
  | none => none
  | some raid_bytes =>
    some
      [("get_raid", getPattern, get_replacement raid_bytes),
       ("set_raid", setPattern, set_replacement raid_bytes),
       ("raid_status", statusPattern, status_replacement)]

/-! ### Orchestrator (`patch_executable`, patcher.py lines 114-175) -/

/-- The mutable `results` dictionary built by `patch_executable`. -/
structure PatchResult where
  success : Bool
  offsets : List (String × Nat)
  errors : List String
  deriving Repr, DecidableEq

/-- One iteration of the `for patch_name, (pattern, replacement)` loop of
`patch_executable` (patcher.py lines 151-162): run `replace_pattern` on the
in-memory buffer; on failure record an error and clear `success`, on
success record the offset. -/
def applyOne (st : List Nat × PatchResult) (p : NamedPatch) :
    List Nat × PatchResult :=
  let r := replace_pattern st.1 p.2.1 p.2.2
  if r.1 < 0 then
    (r.2, ⟨false, st.2.offsets, st.2.errors ++ [p.1 ++ " pattern scan failed"]⟩)
  else
    (r.2, ⟨st.2.success, st.2.offsets ++ [(p.1, r.1.toNat)], st.2.errors⟩)

/-- `BinaryPatcher.patch_executable` (patcher.py lines 114-175), modelled
at the level of file contents: the argument is the bytes read from
`exe_path`, the second component of the result is what the file holds
after the call (the mutated buffer is written back only when every patch
succeeded; otherwise the file keeps its pre-call contents).  An
`OverflowError` escaping from `create_raid_patches` propagates as
`none`. -/
def patch_executable (content : List Nat) (raid_index : Int) :
    Option (PatchResult × List Nat) :=
  match create_raid_patches raid_index with
  | none => none
  | some patches =>
    let st := patches.foldl applyOne (content, ⟨true, [], []⟩)
    some (st.2, if st.2.success then st.1 else content)

/-! ### Verifier and detector -/

/-- `BinaryPatcher.verify_patch` (patcher.py lines 177-199): re-read the
file and test containment of `B8 + raid_bytes + 90`.  Any exception
(missing file, serialization overflow) is caught and yields `False`;
`bytes.__contains__` is the leftmost-scan containment test, expressed with
the same scanning machinery using exact matchers. -/
def verify_patch (file : Option (List Nat)) (raid_index : Int) : Bool :=
  match file with
  | none => false
  | some exe_data =>
    match serialize raid_index with
    | none => false
    | some raid_bytes =>
      (findPattern exe_data
        (List.map some ([0xB8] ++ raid_bytes ++ [0x90]))).isSome

/-- Little-endian decode of the four bytes after position `i`, as in
`int.from_bytes(exe_data[i+1:i+5], byteorder='little')`
(backup.py lines 111-112). -/
def decodeLEAt (exe_data : List Nat) (i : Nat) : Nat :=
  exe_data.getD (i + 1) 0 + 256 * exe_data.getD (i + 2) 0 +
    65536 * exe_data.getD (i + 3) 0 + 16777216 * exe_data.getD (i + 4) 0

/-- The `for i in range(len(exe_data) - 5)` loop of `detect_current_patch`
(backup.py lines 108-117): at each offset check the 6-byte window shape
`B8 .. .. .. .. 90`, decode the middle, and return it only when it lies in
`1..38`; otherwise keep scanning. -/
def detectScan (exe_data : List Nat) : Nat → Nat → Option Nat
  | _, 0 => none
  | i, fuel + 1 =>
    if exe_data.getD i 0 = 0xB8 ∧ exe_data.getD (i + 5) 0 = 0x90 then
      if 1 ≤ decodeLEAt exe_data i ∧ decodeLEAt exe_data i ≤ 38 then
        some (decodeLEAt exe_data i)
      else detectScan exe_data (i + 1) fuel
    else detectScan exe_data (i + 1) fuel

/-- `BackupManager.detect_current_patch` (backup.py lines 84-124): `none`
for a missing/unreadable file, otherwise the first window hit of the scan
over `range(len(exe_data) - 5)`. -/
def detect_current_patch (file : Option (List Nat)) : Option Nat :=
  match file with
  | none => none
  | some exe_data => detectScan exe_data 0 (exe_data.length - 5)

/-- The detection window condition of `detect_current_patch` at offset
`j`: prefix byte `0xB8`, suffix byte `0x90` five positions later, and a
decoded little-endian value inside the hardcoded range `1..38`
(backup.py lines 109-115). -/
def windowValid (exe_data : List Nat) (j : Nat) : Prop :=
  exe_data.getD j 0 = 0xB8 ∧ exe_data.getD (j + 5) 0 = 0x90 ∧
    1 ≤ decodeLEAt exe_data j ∧ decodeLEAt exe_data j ≤ 38

/-! ### Concrete byte images used by counterexamples and witnesses -/

/-- The raw bytes of the `get_raid` signature. -/
def get_pattern_bytes : List Nat := [0x8B, 0x81, 0xC4, 0x53, 0x1D, 0x00]

/-- The raw bytes of the `set_raid` signature. -/
def set_pattern_bytes : List Nat :=
  [0x66, 0x0F, 0x73, 0xDA, 0x08, 0x66, 0x41, 0x0F, 0x7E, 0x50, 0x04, 0xF2,
   0x0F, 0x11, 0x4C]

/-- The raw bytes of the `raid_status` signature. -/
def status_pattern_bytes : List Nat :=
  [0x83, 0x78, 0x10, 0x02, 0x74, 0x10]

/-- A minimal unpatched image containing each signature exactly once. -/
def cleanStub : List Nat :=
  get_pattern_bytes ++ set_pattern_bytes ++ status_pattern_bytes

/-- `cleanStub` preceded by six bytes that already form a valid detection
window (`B8 02 00 00 00 90`, decoding to raid 2). -/
def prefixedStub : List Nat :=
  [0xB8, 0x02, 0x00, 0x00, 0x00, 0x90] ++ cleanStub

/-- An image containing each signature twice. -/
def doubleStub : List Nat := cleanStub ++ cleanStub

/-! ### The matching relation in the words of the specification -/

/-- Spec-side matching relation at an offset: every exact matcher of the
pattern equals the corresponding byte of the buffer; a wildcard imposes no
condition, so it accepts every byte value. -/
def matchSpec (B : List Nat) (P : List Matcher) (i : Nat) : Prop :=
  ∀ (j b : Nat), P[j]? = some (some b) → B[i + j]? = some b

/-- The ordered patch list produced for the serialized bytes `rb`. -/
def patchList (rb : List Nat) : List NamedPatch :=
  [("get_raid", getPattern, get_replacement rb),
   ("set_raid", setPattern, set_replacement rb),
   ("raid_status", statusPattern, status_replacement)]


/-! ### Basic lemmas about the matcher and the scan -/

theorem matchesFrom_length {l : List Nat} {pat : List Matcher}
    (h : matchesFrom l pat = true) : pat.length ≤ l.length := by
  induction pat generalizing l with
  | nil => simp
  | cons m ms ih =>
    cases l with
    | nil => simp [matchesFrom] at h
    | cons b bs =>
      simp only [matchesFrom, Bool.and_eq_true] at h
      simpa [List.length_cons, Nat.succ_le_succ_iff] using ih h.2

theorem matchesFrom_sound {l : List Nat} {pat : List Matcher}
    (h : matchesFrom l pat = true) :
    ∀ (k b : Nat), pat[k]? = some (some b) → l[k]? = some b := by
  induction pat generalizing l with
  | nil => intro k b hk; simp at hk
  | cons m ms ih =>
    cases l with
    | nil => simp [matchesFrom] at h
    | cons x bs =>
      simp only [matchesFrom, Bool.and_eq_true] at h
      intro k b hk
      cases k with
      | zero =>
        simp only [List.getElem?_cons_zero, Option.some.injEq] at hk
        subst hk
        have := h.1
        simp only [matcherOk, beq_iff_eq] at this
        simp [this]
      | succ k =>
        simp only [List.getElem?_cons_succ] at hk ⊢
        exact ih h.2 k b hk

theorem matchesFrom_of {l : List Nat} {pat : List Matcher}
    (hlen : pat.length ≤ l.length)
    (h : ∀ (k b : Nat), pat[k]? = some (some b) → l[k]? = some b) :
    matchesFrom l pat = true := by
  induction pat generalizing l with
  | nil => simp [matchesFrom]
  | cons m ms ih =>
    cases l with
    | nil => simp at hlen
    | cons x bs =>
      simp only [matchesFrom, Bool.and_eq_true]
      constructor
      · cases m with
        | none => rfl
        | some v =>
          have := h 0 v (by simp)
          simp only [List.getElem?_cons_zero, Option.some.injEq] at this
          simp [matcherOk, this]
      · exact ih (by simpa using hlen)
          (fun k b hk => by
            have := h (k + 1) b (by simpa using hk)
            simpa using this)

theorem matchesAt_byte {buf : List Nat} {pat : List Matcher} {s : Nat}
    (h : matchesAt buf pat s = true) {k b : Nat}
    (hk : pat[k]? = some (some b)) : buf[s + k]? = some b := by
  have := matchesFrom_sound h k b hk
  simpa [List.getElem?_drop] using this

theorem scanFrom_eq_some {buf : List Nat} {pat : List Matcher}
    {i fuel k : Nat} (h : scanFrom buf pat i fuel = some k) :
    matchesAt buf pat k = true ∧ i ≤ k ∧ k < i + fuel ∧
      ∀ j, i ≤ j → j < k → matchesAt buf pat j = false := by
  induction fuel generalizing i with
  | zero => simp [scanFrom] at h
  | succ fuel ih =>
    by_cases hm : matchesAt buf pat i = true
    · simp only [scanFrom, hm, if_true, Option.some.injEq] at h
      subst h
      exact ⟨hm, Nat.le_refl _, by omega, fun j h1 h2 => by omega⟩
    · simp only [scanFrom, hm, if_false] at h
      obtain ⟨h1, h2, h3, h4⟩ := ih h
      refine ⟨h1, by omega, by omega, fun j hj1 hj2 => ?_⟩
      rcases Nat.eq_or_lt_of_le hj1 with rfl | hj
      · simpa using hm
      · exact h4 j hj hj2

theorem scanFrom_eq_none {buf : List Nat} {pat : List Matcher}
    {i fuel : Nat} (h : scanFrom buf pat i fuel = none) :
    ∀ j, i ≤ j → j < i + fuel → matchesAt buf pat j = false := by
  induction fuel generalizing i with
  | zero => intro j h1 h2; omega
  | succ fuel ih =>
    by_cases hm : matchesAt buf pat i = true
    · simp [scanFrom, hm] at h
    · simp only [scanFrom, hm, if_false] at h
      intro j hj1 hj2
      rcases Nat.eq_or_lt_of_le hj1 with rfl | hj
      · simpa using hm
      · exact ih h j hj (by omega)

theorem findPattern_eq_some {buf : List Nat} {pat : List Matcher} {k : Nat}
    (h : findPattern buf pat = some k) :
    matchesAt buf pat k = true ∧ k + pat.length ≤ buf.length ∧
      ∀ j, j < k → matchesAt buf pat j = false := by
  by_cases hl : pat.length ≤ buf.length
  · simp only [findPattern, hl, if_true] at h
    obtain ⟨h1, _, h3, h4⟩ := scanFrom_eq_some h
    exact ⟨h1, by omega, fun j hj => h4 j (Nat.zero_le _) hj⟩
  · simp [findPattern, hl] at h

theorem findPattern_eq_none {buf : List Nat} {pat : List Matcher}
    (h : findPattern buf pat = none) :
    ∀ j, j + pat.length ≤ buf.length → matchesAt buf pat j = false := by
  intro j hj
  by_cases hl : pat.length ≤ buf.length
  · simp only [findPattern, hl, if_true] at h
    exact scanFrom_eq_none h j (Nat.zero_le _) (by omega)
  · omega

theorem findPattern_isSome {buf : List Nat} {pat : List Matcher} (j : Nat)
    (hj : j + pat.length ≤ buf.length) (hm : matchesAt buf pat j = true) :
    (findPattern buf pat).isSome = true := by
  cases h : findPattern buf pat with
  | none => rw [findPattern_eq_none h j hj] at hm; cases hm
  | some k => rfl

/-! ### Lemmas about `splice` (Python slice assignment) -/

theorem splice_length {buf : List Nat} {i : Nat} (new : List Nat)
    (hi : i ≤ buf.length) :
    (splice buf i new).length = max buf.length (i + new.length) := by
  simp only [splice, List.length_append, List.length_take, List.length_drop]
  omega

theorem splice_getElem?_left {buf new : List Nat} {i p : Nat}
    (hp : p < i) (hpL : p < buf.length) :
    (splice buf i new)[p]? = buf[p]? := by
  have hlen : p < (buf.take i).length := by
    simp only [List.length_take]; omega
  rw [splice, List.append_assoc, List.getElem?_append_left hlen,
    List.getElem?_take_of_lt hp]

theorem splice_getElem?_right {buf new : List Nat} {i p : Nat}
    (hp : i + new.length ≤ p) (hi : i ≤ buf.length) :
    (splice buf i new)[p]? = buf[p]? := by
  have hlen : (buf.take i ++ new).length = i + new.length := by
    simp only [List.length_append, List.length_take]; omega
  rw [splice, List.append_assoc, ← List.append_assoc,
    List.getElem?_append_right (by omega), hlen, List.getElem?_drop]
  congr 1
  omega

theorem splice_getElem?_mid {buf new : List Nat} {i d : Nat}
    (hd : d < new.length) (hi : i ≤ buf.length) :
    (splice buf i new)[i + d]? = new[d]? := by
  have hlen : (buf.take i).length = i := by
    simp only [List.length_take]; omega
  rw [splice, List.append_assoc, List.getElem?_append_right (by omega), hlen]
  have hd' : i + d - i < new.length := by omega
  rw [List.getElem?_append_left hd']
  congr 1
  omega

theorem matchesAt_iff_spec {B : List Nat} {P : List Matcher} {i : Nat}
    (h : i + P.length ≤ B.length) :
    matchesAt B P i = true ↔ matchSpec B P i := by
  constructor
  · intro hm j b hj
    exact matchesAt_byte hm hj
  · intro hs
    apply matchesFrom_of
    · simp only [List.length_drop]; omega
    · intro k b hk
      rw [List.getElem?_drop]
      exact hs k b hk

/-! ### C1: leftmost-match contract of `replace_pattern` -/

/-- C1.  For every buffer `B`, pattern `P` of `N` matchers with
`N ≤ len(B)` and replacement `R`, `replace_pattern` returns the smallest
offset `i` in `[0, len(B) - N]` at which every exact matcher of `P` equals
the corresponding byte of `B` (wildcards accept every byte), or `-1` when
no such offset exists. -/
theorem replace_pattern_leftmost (B : List Nat) (P : List Matcher)
    (R : List Nat) (hPB : P.length ≤ B.length) :
    ((replace_pattern B P R).1 = -1 →
      ∀ i, i + P.length ≤ B.length → ¬ matchSpec B P i) ∧
    (∀ i : Nat, (replace_pattern B P R).1 = (i : Int) →
      i + P.length ≤ B.length ∧ matchSpec B P i ∧
        ∀ j < i, ¬ matchSpec B P j) := by
  cases h : findPattern B P with
  | none =>
    constructor
    · intro _ i hi hspec
      have hm := (matchesAt_iff_spec hi).mpr hspec
      rw [findPattern_eq_none h i hi] at hm
      cases hm
    · intro i hi
      simp only [replace_pattern, h] at hi
      omega
  | some k =>
    obtain ⟨h1, h2, h3⟩ := findPattern_eq_some h
    constructor
    · intro hneg
      simp only [replace_pattern, h] at hneg
      omega
    · intro i hi
      simp only [replace_pattern, h] at hi
      have hik : i = k := by omega
      subst hik
      refine ⟨h2, (matchesAt_iff_spec h2).mp h1, fun j hj hspec => ?_⟩
      have hjb : j + P.length ≤ B.length := by omega
      have := h3 j hj
      rw [← matchesAt_iff_spec hjb] at hspec
      rw [this] at hspec
      cases hspec

/-- Witness for C1 on a concrete buffer: the pattern `[some 2]` matches
`[1, 2, 3]` first at offset 1, and `replace_pattern` reports exactly
that. -/
theorem replace_pattern_leftmost_witness :
    (([some 2] : List Matcher).length ≤ ([1, 2, 3] : List Nat).length) ∧
    (((replace_pattern [1, 2, 3] [some 2] [9]).1 = -1 →
      ∀ i, i + ([some 2] : List Matcher).length ≤
          ([1, 2, 3] : List Nat).length → ¬ matchSpec [1, 2, 3] [some 2] i) ∧
    (∀ i : Nat, (replace_pattern [1, 2, 3] [some 2] [9]).1 = (i : Int) →
      i + ([some 2] : List Matcher).length ≤
          ([1, 2, 3] : List Nat).length ∧ matchSpec [1, 2, 3] [some 2] i ∧
        ∀ j < i, ¬ matchSpec [1, 2, 3] [some 2] j)) :=
  ⟨by decide, replace_pattern_leftmost [1, 2, 3] [some 2] [9] (by decide)⟩

/-! ### C7: frame condition of `replace_pattern` -/

/-- C7.  When `replace_pattern` returns `NOT_FOUND` the buffer is left
unchanged; when it returns offset `i`, the bytes before `i` and from
`i + len(replacement)` on keep their original values and exactly
`len(replacement)` bytes — the replacement itself — stand at
`[i, i + len(replacement))`. -/
theorem replace_pattern_frame (B : List Nat) (P : List Matcher)
    (R : List Nat) :
    ((replace_pattern B P R).1 = -1 → (replace_pattern B P R).2 = B) ∧
    (∀ i : Nat, (replace_pattern B P R).1 = (i : Int) →
      (replace_pattern B P R).2.take i = B.take i ∧
      ((replace_pattern B P R).2.drop i).take R.length = R ∧
      (replace_pattern B P R).2.drop (i + R.length) =
        B.drop (i + R.length)) := by
  cases h : findPattern B P with
  | none =>
    refine ⟨fun _ => by simp [replace_pattern, h], fun i hi => ?_⟩
    simp only [replace_pattern, h] at hi
    omega
  | some k =>
    obtain ⟨h1, h2, h3⟩ := findPattern_eq_some h
    have hkB : k ≤ B.length := by omega
    have htk : (B.take k).length = k := by
      simp only [List.length_take]; omega
    refine ⟨fun hc => by simp only [replace_pattern, h] at hc; omega,
      fun i hi => ?_⟩
    simp only [replace_pattern, h] at hi ⊢
    have hik : i = k := by omega
    subst hik
    refine ⟨?_, ?_, ?_⟩
    · rw [splice, List.append_assoc, List.take_append_of_le_length (by omega),
        List.take_take, Nat.min_self]
    · rw [splice, List.append_assoc, List.drop_left' htk, List.take_left]
    · have hlen : (B.take i ++ R).length = i + R.length := by
        simp only [List.length_append, htk]
      rw [splice, List.drop_left' hlen]

/-- Witness for C7 on a concrete buffer: replacing `[some 2]` by `[9]`
inside `[1, 2, 3]` rewrites position 1 only. -/
theorem replace_pattern_frame_witness :
    (replace_pattern [1, 2, 3] [some 2] [9]).2.take 1 =
        ([1, 2, 3] : List Nat).take 1 ∧
    ((replace_pattern [1, 2, 3] [some 2] [9]).2.drop 1).take
        ([9] : List Nat).length = [9] ∧
    (replace_pattern [1, 2, 3] [some 2] [9]).2.drop
        (1 + ([9] : List Nat).length) =
      ([1, 2, 3] : List Nat).drop (1 + ([9] : List Nat).length) :=
  (replace_pattern_frame [1, 2, 3] [some 2] [9]).2 1 (by decide)

/-! ### C6: behavior of an out-of-range replacement write -/

/-- C6 counterexample.  On the one-byte buffer `[0]` the pattern
`[some 0]` matches at offset 0 and the two-byte replacement overflows the
buffer (`0 + 2 > 1`), yet `replace_pattern` reports no error: it returns
the success offset `0` — `-1` is its only error channel — and the
bytearray slice assignment silently grows the buffer to length 2.  This
refutes the claim that the operation fails loudly in this situation. -/
theorem replace_pattern_silent_growth :
    (replace_pattern [0] [some 0] [170, 187]).1 = 0 ∧
    (replace_pattern [0] [some 0] [170, 187]).2 = [170, 187] := by decide

/-- C6 amended.  When `replace_pattern` matches at offset `i` and
`i + len(replacement)` exceeds the buffer length, it does not report an
error: it still returns offset `i` and Python's slice assignment silently
grows the buffer, whose final length is `i + len(replacement)` with the
replacement occupying `[i, i + len(replacement))`. -/
theorem replace_pattern_growth_semantics (B : List Nat) (P : List Matcher)
    (R : List Nat) (i : Nat) (hi : (replace_pattern B P R).1 = (i : Int))
    (hover : B.length < i + R.length) :
    (replace_pattern B P R).2.length = i + R.length ∧
    (replace_pattern B P R).2.drop i = R := by
  cases h : findPattern B P with
  | none => simp only [replace_pattern, h] at hi; omega
  | some k =>
    obtain ⟨h1, h2, h3⟩ := findPattern_eq_some h
    simp only [replace_pattern, h] at hi ⊢
    have hik : i = k := by omega
    subst hik
    have hkB : i ≤ B.length := by omega
    have htk : (B.take i).length = i := by
      simp only [List.length_take]; omega
    constructor
    · rw [splice_length R hkB]; omega
    · rw [splice, List.append_assoc, List.drop_left' htk,
        List.drop_eq_nil_of_le (by omega), List.append_nil]

/-- Witness for the amended C6 at the concrete overflowing input. -/
theorem replace_pattern_growth_semantics_witness :
    (replace_pattern [0] [some 0] [170, 187]).2.length =
        0 + ([170, 187] : List Nat).length ∧
    (replace_pattern [0] [some 0] [170, 187]).2.drop 0 = [170, 187] :=
  replace_pattern_growth_semantics [0] [some 0] [170, 187] 0
    (by decide) (by decide)

/-! ### C3: shape of the generated patch set -/

/-- C3 counterexample.  At parameter 1 `create_raid_patches` does return
three named patches, but the little-endian serialization `[1, 0, 0, 0]`
is **not** a contiguous sub-sequence of the `raid_status` replacement
`[0x39, 0xC0, 0x90, 0x90]`, which is a fixed constant independent of the
parameter.  This refutes the claim that the serialized parameter is
embedded in each of the three replacements. -/
theorem raid_status_replacement_lacks_parameter :
    create_raid_patches 1 =
      some
        [("get_raid", getPattern, [0xB8, 1, 0, 0, 0, 0x90]),
         ("set_raid", setPattern,
           [0x41, 0xC7, 0x40, 0x04, 1, 0, 0, 0, 0x90, 0x90, 0x90]),
         ("raid_status", statusPattern, [0x39, 0xC0, 0x90, 0x90])] ∧
    ¬ ([1, 0, 0, 0] : List Nat) <:+: [0x39, 0xC0, 0x90, 0x90] := by
  constructor
  · rfl
  · decide

/-- C3 amended.  For every parameter in `[0, 2^32)` the generator returns
exactly three named patches; the 4-byte little-endian serialization of the
parameter occurs contiguously inside the replacements of the first two
patches (`get_raid`, `set_raid`), while the `raid_status` replacement is
the fixed constant `[0x39, 0xC0, 0x90, 0x90]` that does not depend on the
parameter. -/
theorem create_raid_patches_embedding (n : Int) (h0 : 0 ≤ n)
    (h1 : n < 4294967296) :
    ∃ ps : List NamedPatch, create_raid_patches n = some ps ∧
      ps.length = 3 ∧
      (∀ p ∈ ps.take 2, leBytes n.toNat <:+: p.2.2) ∧
      ∀ p ∈ ps, p.1 = "raid_status" → p.2.2 = [0x39, 0xC0, 0x90, 0x90] := by
  refine ⟨[("get_raid", getPattern, get_replacement (leBytes n.toNat)),
      ("set_raid", setPattern, set_replacement (leBytes n.toNat)),
      ("raid_status", statusPattern, status_replacement)],
    ?_, rfl, ?_, ?_⟩
  · simp only [create_raid_patches, serialize, if_pos (And.intro h0 h1)]
  · intro p hp
    simp only [List.take, List.mem_cons, List.not_mem_nil, or_false] at hp
    rcases hp with rfl | rfl
    · exact ⟨[0xB8], [0x90], rfl⟩
    · exact ⟨[0x41, 0xC7, 0x40, 0x04], [0x90, 0x90, 0x90], rfl⟩
  · intro p hp hname
    simp only [List.mem_cons, List.not_mem_nil, or_false] at hp
    rcases hp with rfl | rfl | rfl
    · simp at hname
    · simp at hname
    · rfl

/-- Witness for the amended C3 at parameter 5. -/
theorem create_raid_patches_embedding_witness :
    ∃ ps : List NamedPatch, create_raid_patches 5 = some ps ∧
      ps.length = 3 ∧
      (∀ p ∈ ps.take 2, leBytes (5 : Int).toNat <:+: p.2.2) ∧
      ∀ p ∈ ps, p.1 = "raid_status" → p.2.2 = [0x39, 0xC0, 0x90, 0x90] :=
  create_raid_patches_embedding 5 (by decide) (by decide)

/-! ### C10: the overflow boundary of the serialization -/

/-- C10.  `create_raid_patches` yields a patch set exactly for the
parameters whose 4-byte serialization does not overflow — every
`raid_index` in `[0, 2^32)` — and for a negative or too-large parameter
the `OverflowError` propagates through `patch_executable` (modelled by
`none`): it is not converted into a `PatchError` or an entry of the error
list. -/
theorem serialization_overflow_propagates (n : Int) :
    ((create_raid_patches n).isSome ↔ 0 ≤ n ∧ n < 4294967296) ∧
    ∀ content : List Nat,
      (patch_executable content n = none ↔ ¬ (0 ≤ n ∧ n < 4294967296)) := by
  constructor
  · by_cases h : 0 ≤ n ∧ n < 4294967296
    · simp [create_raid_patches, serialize, h]
    · simp [create_raid_patches, serialize, h]
  · intro content
    by_cases h : 0 ≤ n ∧ n < 4294967296
    · simp [patch_executable, create_raid_patches, serialize, h]
    · simp [patch_executable, create_raid_patches, serialize, h]

/-- Witness for C10: at the in-range parameter 1 and the out-of-range
parameter `2^32` the boundary behaves as stated. -/
theorem serialization_overflow_propagates_witness :
    (create_raid_patches 1).isSome = true ∧
    patch_executable [] 4294967296 = none := by
  constructor
  · exact ((serialization_overflow_propagates 1).1.mpr (by decide) : _)
  · exact ((serialization_overflow_propagates 4294967296).2 []).mpr (by decide)

/-! ### Lemmas about the orchestrator loop -/

theorem applyOne_found {buf : List Nat} {res : PatchResult} {p : NamedPatch}
    {k : Nat} (h : findPattern buf p.2.1 = some k) :
    applyOne (buf, res) p =
      (splice buf k p.2.2,
       ⟨res.success, res.offsets ++ [(p.1, k)], res.errors⟩) := by
  simp only [applyOne, replace_pattern, h]
  rw [if_neg (by omega : ¬ ((k : Int) < 0))]
  simp

theorem applyOne_notfound {buf : List Nat} {res : PatchResult}
    {p : NamedPatch} (h : findPattern buf p.2.1 = none) :
    applyOne (buf, res) p =
      (buf, ⟨false, res.offsets,
             res.errors ++ [p.1 ++ " pattern scan failed"]⟩) := by
  simp only [applyOne, replace_pattern, h]
  rw [if_pos (by omega : ((-1 : Int) < 0))]

/-- Invariant of the `for patch_name ...` loop: errors only accumulate,
`success` ends up true exactly when it started true and no new error was
appended, and every patch contributes exactly one entry, either to
`offsets` or to `errors`. -/
theorem foldl_applyOne_spec (ps : List NamedPatch) (buf : List Nat)
    (res : PatchResult) :
    ∃ extra : List String,
      (ps.foldl applyOne (buf, res)).2.errors = res.errors ++ extra ∧
      ((ps.foldl applyOne (buf, res)).2.success = true ↔
        (res.success = true ∧ extra = [])) ∧
      (ps.foldl applyOne (buf, res)).2.offsets.length + extra.length =
        res.offsets.length + ps.length := by
  induction ps generalizing buf res with
  | nil =>
    exact ⟨[], by simp, by simp, by simp⟩
  | cons p ps ih =>
    cases h : findPattern buf p.2.1 with
    | some k =>
      obtain ⟨extra, h1, h2, h3⟩ :=
        ih (splice buf k p.2.2)
          ⟨res.success, res.offsets ++ [(p.1, k)], res.errors⟩
      refine ⟨extra, ?_, ?_, ?_⟩
      · simpa [applyOne_found h] using h1
      · simpa [applyOne_found h] using h2
      · simp only [List.foldl_cons, applyOne_found h] at h3 ⊢
        simp only [List.length_append, List.length_cons,
          List.length_nil] at h3 ⊢
        omega
    | none =>
      obtain ⟨extra, h1, h2, h3⟩ :=
        ih buf
          ⟨false, res.offsets, res.errors ++ [p.1 ++ " pattern scan failed"]⟩
      refine ⟨(p.1 ++ " pattern scan failed") :: extra, ?_, ?_, ?_⟩
      · simp only [List.foldl_cons, applyOne_notfound h]
        simpa [List.append_assoc] using h1
      · simp only [List.foldl_cons, applyOne_notfound h]
        rw [h2]
        simp
      · simp only [List.foldl_cons, applyOne_notfound h] at h3 ⊢
        simp only [List.length_cons] at h3 ⊢
        omega

/-! ### C2: error collection and all-or-nothing write policy -/

/-- C2.  For every file content and every serializable parameter,
`patch_executable` attempts all three named patches (each contributes
exactly one entry, to `offsets` on a hit or to `errors` on a miss, so
`|offsets| + |errors| = 3`), the returned `success` flag is true exactly
when the error list is empty, and when any patch failed the file keeps its
pre-call contents byte for byte (the mutated buffer is not persisted). -/
theorem patch_executable_all_or_nothing (content : List Nat) (n : Int)
    (h0 : 0 ≤ n) (h1 : n < 4294967296) :
    ∃ (res : PatchResult) (out : List Nat),
      patch_executable content n = some (res, out) ∧
      (res.success = true ↔ res.errors = []) ∧
      res.offsets.length + res.errors.length = 3 ∧
      (res.success = false → out = content) := by
  have hser : serialize n = some (leBytes n.toNat) := by
    simp [serialize, h0, h1]
  have hunf : patch_executable content n =
      some ((List.foldl applyOne (content, ⟨true, [], []⟩)
          [("get_raid", getPattern, get_replacement (leBytes n.toNat)),
           ("set_raid", setPattern, set_replacement (leBytes n.toNat)),
           ("raid_status", statusPattern, status_replacement)]).2,
        if (List.foldl applyOne (content, ⟨true, [], []⟩)
            [("get_raid", getPattern, get_replacement (leBytes n.toNat)),
             ("set_raid", setPattern, set_replacement (leBytes n.toNat)),
             ("raid_status", statusPattern, status_replacement)]).2.success
        then (List.foldl applyOne (content, ⟨true, [], []⟩)
            [("get_raid", getPattern, get_replacement (leBytes n.toNat)),
             ("set_raid", setPattern, set_replacement (leBytes n.toNat)),
             ("raid_status", statusPattern, status_replacement)]).1
        else content) := by
    simp only [patch_executable, create_raid_patches, hser]
  obtain ⟨extra, he, hsuc, hlen⟩ :=
    foldl_applyOne_spec
      [("get_raid", getPattern, get_replacement (leBytes n.toNat)),
       ("set_raid", setPattern, set_replacement (leBytes n.toNat)),
       ("raid_status", statusPattern, status_replacement)]
      content ⟨true, [], []⟩
  refine ⟨_, _, hunf, ?_, ?_, ?_⟩
  · rw [he, hsuc]
    simp
  · rw [he]
    simp only [List.length_append, List.length_nil, List.length_cons] at hlen ⊢
    omega
  · intro hfail
    rw [hfail]
    simp

/-- Witness for C2 on a concrete call: the empty file, in which no pattern
can match. -/
theorem patch_executable_all_or_nothing_witness :
    ∃ (res : PatchResult) (out : List Nat),
      patch_executable [] 7 = some (res, out) ∧
      (res.success = true ↔ res.errors = []) ∧
      res.offsets.length + res.errors.length = 3 ∧
      (res.success = false → out = []) :=
  patch_executable_all_or_nothing [] 7 (by decide) (by decide)

/-! ### Structure of a fully successful `patch_executable` call -/

theorem patch_executable_eq_foldl (content : List Nat) (n : Int)
    {rb : List Nat} (hser : serialize n = some rb) :
    patch_executable content n =
      some ((List.foldl applyOne (content, ⟨true, [], []⟩) (patchList rb)).2,
        if (List.foldl applyOne (content, ⟨true, [], []⟩)
            (patchList rb)).2.success
        then (List.foldl applyOne (content, ⟨true, [], []⟩) (patchList rb)).1
        else content) := by
  simp only [patch_executable, create_raid_patches, hser, patchList]

theorem foldl_applyOne_false (ps : List NamedPatch) (buf : List Nat)
    (res : PatchResult) (h : res.success = false) :
    (ps.foldl applyOne (buf, res)).2.success = false := by
  obtain ⟨extra, _, hsuc, _⟩ := foldl_applyOne_spec ps buf res
  cases hfin : (ps.foldl applyOne (buf, res)).2.success with
  | true => rw [(hsuc.mp hfin).1] at h; cases h
  | false => rfl

/-- A fully successful orchestration is exactly the sequential application
of the three patches, each matching (`get_raid` first, then `set_raid` on
the mutated buffer, then `raid_status`), with the final in-memory buffer
persisted as the file's new contents. -/
theorem patch_success_shape (content : List Nat) (n : Int) (h0 : 0 ≤ n)
    (h1 : n < 4294967296) {res : PatchResult} {out : List Nat}
    (hp : patch_executable content n = some (res, out))
    (hs : res.success = true) :
    ∃ g s t : Nat,
      findPattern content getPattern = some g ∧
      findPattern (splice content g (get_replacement (leBytes n.toNat)))
        setPattern = some s ∧
      findPattern
        (splice (splice content g (get_replacement (leBytes n.toNat))) s
          (set_replacement (leBytes n.toNat))) statusPattern = some t ∧
      out =
        splice
          (splice (splice content g (get_replacement (leBytes n.toNat))) s
            (set_replacement (leBytes n.toNat))) t status_replacement := by
  have hser : serialize n = some (leBytes n.toNat) := by
    simp [serialize, h0, h1]
  rw [patch_executable_eq_foldl content n hser] at hp
  have hpair := Option.some.inj hp
  have hres : (List.foldl applyOne (content, ⟨true, [], []⟩)
      (patchList (leBytes n.toNat))).2 = res := congrArg Prod.fst hpair
  have hout : (if (List.foldl applyOne (content, ⟨true, [], []⟩)
        (patchList (leBytes n.toNat))).2.success
      then (List.foldl applyOne (content, ⟨true, [], []⟩)
        (patchList (leBytes n.toNat))).1
      else content) = out := congrArg Prod.snd hpair
  cases hg : findPattern content getPattern with
  | none =>
    exfalso
    have e1 : List.foldl applyOne (content, (⟨true, [], []⟩ : PatchResult))
        (patchList (leBytes n.toNat)) =
        List.foldl applyOne
          (content, ⟨false, [], ["get_raid pattern scan failed"]⟩)
          [("set_raid", setPattern, set_replacement (leBytes n.toNat)),
           ("raid_status", statusPattern, status_replacement)] := by
      simp only [patchList]
      rw [List.foldl_cons, applyOne_notfound hg]
      rfl
    have hfalse : res.success = false := by
      rw [← hres, e1]
      exact foldl_applyOne_false _ _ _ rfl
    rw [hs] at hfalse
    cases hfalse
  | some g =>
    have e1 : List.foldl applyOne (content, (⟨true, [], []⟩ : PatchResult))
        (patchList (leBytes n.toNat)) =
        List.foldl applyOne
          (splice content g (get_replacement (leBytes n.toNat)),
           ⟨true, [("get_raid", g)], []⟩)
          [("set_raid", setPattern, set_replacement (leBytes n.toNat)),
           ("raid_status", statusPattern, status_replacement)] := by
      simp only [patchList]
      rw [List.foldl_cons, applyOne_found hg]
      rfl
    cases hs2 : findPattern (splice content g (get_replacement
        (leBytes n.toNat))) setPattern with
    | none =>
      exfalso
      have e2 : List.foldl applyOne (content, (⟨true, [], []⟩ : PatchResult))
          (patchList (leBytes n.toNat)) =
          List.foldl applyOne
            (splice content g (get_replacement (leBytes n.toNat)),
             ⟨false, [("get_raid", g)], ["set_raid pattern scan failed"]⟩)
            [("raid_status", statusPattern, status_replacement)] := by
        rw [e1, List.foldl_cons, applyOne_notfound hs2]
        rfl
      have hfalse : res.success = false := by
        rw [← hres, e2]
        exact foldl_applyOne_false _ _ _ rfl
      rw [hs] at hfalse
      cases hfalse
    | some s =>
      have e2 : List.foldl applyOne (content, (⟨true, [], []⟩ : PatchResult))
          (patchList (leBytes n.toNat)) =
          List.foldl applyOne
            (splice (splice content g (get_replacement (leBytes n.toNat))) s
              (set_replacement (leBytes n.toNat)),
             ⟨true, [("get_raid", g), ("set_raid", s)], []⟩)
            [("raid_status", statusPattern, status_replacement)] := by
        rw [e1, List.foldl_cons, applyOne_found hs2]
        rfl
      cases hs3 : findPattern (splice (splice content g (get_replacement
          (leBytes n.toNat))) s (set_replacement (leBytes n.toNat)))
          statusPattern with
      | none =>
        exfalso
        have e3 : List.foldl applyOne
            (content, (⟨true, [], []⟩ : PatchResult))
            (patchList (leBytes n.toNat)) =
            (splice (splice content g (get_replacement (leBytes n.toNat))) s
              (set_replacement (leBytes n.toNat)),
             ⟨false, [("get_raid", g), ("set_raid", s)],
              ["raid_status pattern scan failed"]⟩) := by
          rw [e2, List.foldl_cons, applyOne_notfound hs3, List.foldl_nil]
          rfl
        have hfalse : res.success = false := by
          rw [← hres, e3]
        rw [hs] at hfalse
        cases hfalse
      | some t =>
        have e3 : List.foldl applyOne
            (content, (⟨true, [], []⟩ : PatchResult))
            (patchList (leBytes n.toNat)) =
            (splice (splice (splice content g (get_replacement
                (leBytes n.toNat))) s (set_replacement (leBytes n.toNat))) t
              status_replacement,
             ⟨true, [("get_raid", g), ("set_raid", s), ("raid_status", t)],
              []⟩) := by
          rw [e2, List.foldl_cons, applyOne_found hs3, List.foldl_nil]
          rfl
        refine ⟨g, s, t, rfl, hs2, hs3, ?_⟩
        rw [e3] at hout
        simpa using hout.symm

/-! ### The later patches cannot overwrite the `get_raid` window -/

/-- The `set_raid` pattern can never match a window overlapping the
six-byte region written by `get_raid`: the endpoints of that region hold
`0xB8` and `0x90`, and no byte of the first eleven (resp. first five)
`set_raid` pattern positions equals `0xB8` (resp. `0x90`).  Hence the
eleven-byte `set_raid` write region is disjoint from the window. -/
theorem setPattern_write_disjoint {buf : List Nat} {s g : Nat}
    (hm : matchesAt buf setPattern s = true)
    (hB : buf[g]? = some 0xB8) (h9 : buf[g + 5]? = some 0x90) :
    s + 11 ≤ g ∨ g + 6 ≤ s := by
  by_contra hc
  push_neg at hc
  obtain ⟨hc1, hc2⟩ := hc
  have hex : ∀ k, k < 15 → ∃ b : Nat, setPattern[k]? = some (some b) := by
    intro k hk
    interval_cases k <;> exact ⟨_, rfl⟩
  rcases le_or_lt s g with hsg | hgs
  · have hallB : ∀ k < 11, setPattern[k]? ≠ some (some 0xB8) := by decide
    obtain ⟨b, hb⟩ := hex (g - s) (by omega)
    have hbyte := matchesAt_byte hm hb
    rw [show s + (g - s) = g by omega, hB] at hbyte
    rw [(Option.some.inj hbyte).symm] at hb
    exact hallB (g - s) (by omega) hb
  · have hall9 : ∀ k < 5, setPattern[k]? ≠ some (some 0x90) := by decide
    obtain ⟨b, hb⟩ := hex (g + 5 - s) (by omega)
    have hbyte := matchesAt_byte hm hb
    rw [show s + (g + 5 - s) = g + 5 by omega, h9] at hbyte
    rw [(Option.some.inj hbyte).symm] at hb
    exact hall9 (g + 5 - s) (by omega) hb

/-- Same disjointness for the `raid_status` pattern and its four-byte
write region. -/
theorem statusPattern_write_disjoint {buf : List Nat} {t g : Nat}
    (hm : matchesAt buf statusPattern t = true)
    (hB : buf[g]? = some 0xB8) (h9 : buf[g + 5]? = some 0x90) :
    t + 4 ≤ g ∨ g + 6 ≤ t := by
  by_contra hc
  push_neg at hc
  obtain ⟨hc1, hc2⟩ := hc
  have hex : ∀ k, k < 6 → ∃ b : Nat, statusPattern[k]? = some (some b) := by
    intro k hk
    interval_cases k <;> exact ⟨_, rfl⟩
  rcases le_or_lt t g with htg | hgt
  · have hallB : ∀ k < 4, statusPattern[k]? ≠ some (some 0xB8) := by decide
    obtain ⟨b, hb⟩ := hex (g - t) (by omega)
    have hbyte := matchesAt_byte hm hb
    rw [show t + (g - t) = g by omega, hB] at hbyte
    rw [(Option.some.inj hbyte).symm] at hb
    exact hallB (g - t) (by omega) hb
  · have hall9 : ∀ k < 5, statusPattern[k]? ≠ some (some 0x90) := by decide
    obtain ⟨b, hb⟩ := hex (g + 5 - t) (by omega)
    have hbyte := matchesAt_byte hm hb
    rw [show t + (g + 5 - t) = g + 5 by omega, h9] at hbyte
    rw [(Option.some.inj hbyte).symm] at hb
    exact hall9 (g + 5 - t) (by omega) hb

/-- After a fully successful `patch_executable` call, the persisted file
has the same length as the input and carries the `get_raid` replacement
window `B8 [raid_bytes] 90` intact at the offset where `get_raid`
matched: the later `set_raid` and `raid_status` writes never touch it. -/
theorem get_window_after (content : List Nat) (n : Int) (h0 : 0 ≤ n)
    (h1 : n < 4294967296) {res : PatchResult} {out : List Nat}
    (hp : patch_executable content n = some (res, out))
    (hs : res.success = true) :
    ∃ g : Nat, findPattern content getPattern = some g ∧
      out.length = content.length ∧ g + 6 ≤ out.length ∧
      ∀ d, d < 6 → out[g + d]? = (get_replacement (leBytes n.toNat))[d]? := by
  obtain ⟨g, s, t, hg, hset, hstat, hout⟩ :=
    patch_success_shape content n h0 h1 hp hs
  obtain ⟨hgm, hglen, -⟩ := findPattern_eq_some hg
  have hrlen : (get_replacement (leBytes n.toNat)).length = 6 := rfl
  have hgpat : getPattern.length = 6 := rfl
  rw [hgpat] at hglen
  have hgle : g ≤ content.length := by omega
  set b1 := splice content g (get_replacement (leBytes n.toNat)) with hb1
  have hb1len : b1.length = content.length := by
    rw [hb1, splice_length _ hgle, hrlen]
    omega
  have hb1win : ∀ d, d < 6 → b1[g + d]? =
      (get_replacement (leBytes n.toNat))[d]? := by
    intro d hd
    rw [hb1]
    exact splice_getElem?_mid (by rw [hrlen]; omega) hgle
  have hb1B : b1[g]? = some 0xB8 := by
    have := hb1win 0 (by omega)
    simpa [get_replacement] using this
  have hb190 : b1[g + 5]? = some 0x90 := by
    have := hb1win 5 (by omega)
    rw [this]
    simp [get_replacement, leBytes]
  obtain ⟨hsm, hslen, -⟩ := findPattern_eq_some hset
  have hspat : setPattern.length = 15 := rfl
  rw [hspat] at hslen
  have hsle : s ≤ b1.length := by omega
  have hsrlen : (set_replacement (leBytes n.toNat)).length = 11 := rfl
  have hdisj1 := setPattern_write_disjoint hsm hb1B hb190
  set b2 := splice b1 s (set_replacement (leBytes n.toNat)) with hb2
  have hb2len : b2.length = content.length := by
    rw [hb2, splice_length _ hsle, hsrlen, hb1len]
    omega
  have hb2win : ∀ d, d < 6 → b2[g + d]? = b1[g + d]? := by
    intro d hd
    rw [hb2]
    rcases hdisj1 with hL | hR
    · exact splice_getElem?_right (by rw [hsrlen]; omega) hsle
    · exact splice_getElem?_left (by omega) (by omega)
  have hb2B : b2[g]? = some 0xB8 := by
    have h' := hb2win 0 (by omega)
    simp only [Nat.add_zero] at h'
    rw [h']
    exact hb1B
  have hb290 : b2[g + 5]? = some 0x90 := by
    rw [hb2win 5 (by omega)]
    exact hb190
  obtain ⟨htm, htlen, -⟩ := findPattern_eq_some hstat
  have htpat : statusPattern.length = 6 := rfl
  rw [htpat] at htlen
  have htle : t ≤ b2.length := by omega
  have htrlen : status_replacement.length = 4 := rfl
  have hdisj2 := statusPattern_write_disjoint htm hb2B hb290
  have houtlen : out.length = content.length := by
    rw [hout, splice_length _ htle, htrlen, hb2len]
    omega
  refine ⟨g, hg, houtlen, by omega, fun d hd => ?_⟩
  have houtwin : out[g + d]? = b2[g + d]? := by
    rw [hout]
    rcases hdisj2 with hL | hR
    · exact splice_getElem?_right (by rw [htrlen]; omega) htle
    · exact splice_getElem?_left (by omega) (by omega)
  rw [houtwin, hb2win d hd, hb1win d hd]

/-! ### Lemmas about the detection scan -/

theorem detectScan_range {exe : List Nat} {fuel : Nat} :
    ∀ {i v : Nat}, detectScan exe i fuel = some v → 1 ≤ v ∧ v ≤ 38 := by
  induction fuel with
  | zero => intro i v h; simp [detectScan] at h
  | succ fuel ih =>
    intro i v h
    by_cases h1 : exe.getD i 0 = 0xB8 ∧ exe.getD (i + 5) 0 = 0x90
    · by_cases h2 : 1 ≤ decodeLEAt exe i ∧ decodeLEAt exe i ≤ 38
      · simp only [detectScan, if_pos h1, if_pos h2,
          Option.some.injEq] at h
        omega
      · simp only [detectScan, if_pos h1, if_neg h2] at h
        exact ih h
    · simp only [detectScan, if_neg h1] at h
      exact ih h

theorem detectScan_found {exe : List Nat} {g : Nat} (hw : windowValid exe g) :
    ∀ (fuel i : Nat), i ≤ g → g < i + fuel →
      (∀ j, i ≤ j → j < g → ¬ windowValid exe j) →
      detectScan exe i fuel = some (decodeLEAt exe g) := by
  obtain ⟨w1, w2, w3, w4⟩ := hw
  intro fuel
  induction fuel with
  | zero => intro i h1 h2 _; omega
  | succ fuel ih =>
    intro i h1 h2 hnone
    rcases Nat.eq_or_lt_of_le h1 with rfl | hlt
    · simp only [detectScan]
      rw [if_pos ⟨w1, w2⟩, if_pos ⟨w3, w4⟩]
    · have hnv : ¬ windowValid exe i := hnone i (Nat.le_refl _) hlt
      have hstep : detectScan exe (i + 1) fuel =
          some (decodeLEAt exe g) :=
        ih (i + 1) (by omega) (by omega)
          (fun j hj1 hj2 => hnone j (by omega) hj2)
      by_cases hs : exe.getD i 0 = 0xB8 ∧ exe.getD (i + 5) 0 = 0x90
      · by_cases hr : 1 ≤ decodeLEAt exe i ∧ decodeLEAt exe i ≤ 38
        · exact absurd ⟨hs.1, hs.2, hr.1, hr.2⟩ hnv
        · simp only [detectScan, if_pos hs, if_neg hr]
          exact hstep
      · simp only [detectScan, if_neg hs]
        exact hstep

/-! ### C4: round-trip of detection after a successful patch -/

/-- C4 counterexample.  `prefixedStub` carries a pre-existing valid
detection window (`B8 02 00 00 00 90`, decoding to 2) in front of the
three signatures.  `patch_executable` with raid 5 succeeds on it, yet
`detect_current_patch` on the patched result returns `some 2`, not
`some 5`: the leftmost-window heuristic reports the spurious earlier
window, refuting the unconditional round-trip claim. -/
theorem detect_hijacked_by_earlier_window :
    (patch_executable prefixedStub 5).map
      (fun r => (r.1.success, detect_current_patch (some r.2))) =
      some (true, some 2) := by decide

/-- C4 amended.  For `X` in `1..38`, if `patch_executable` succeeds and no
offset in the patched file **before** the `get_raid` match offset forms a
valid detection window, then `detect_current_patch` on the patched file
returns exactly `X` (the window written by `get_raid` survives the later
patches and is the leftmost valid window). -/
theorem detect_roundtrip_of_leftmost_window (content : List Nat) (X : Nat)
    (hX1 : 1 ≤ X) (hX2 : X ≤ 38) (res : PatchResult) (out : List Nat)
    (hp : patch_executable content (X : Int) = some (res, out))
    (hs : res.success = true) (g : Nat)
    (hg : findPattern content getPattern = some g)
    (hnone : ∀ j, j < g → ¬ windowValid out j) :
    detect_current_patch (some out) = some X := by
  obtain ⟨g', hg', hlen, hg6, hwin⟩ :=
    get_window_after content (X : Int) (by omega) (by omega) hp hs
  rw [hg] at hg'
  have hgg : g = g' := Option.some.inj hg'
  subst hgg
  have hle : leBytes ((X : Int)).toNat = [X, 0, 0, 0] := by
    rw [Int.toNat_ofNat]
    simp only [leBytes]
    rw [Nat.mod_eq_of_lt (show X < 256 by omega),
      Nat.div_eq_of_lt (show X < 256 by omega),
      Nat.div_eq_of_lt (show X < 65536 by omega),
      Nat.div_eq_of_lt (show X < 16777216 by omega)]
  rw [hle] at hwin
  have e0 : out[g]? = some 0xB8 := by
    have := hwin 0 (by omega)
    simpa [get_replacement] using this
  have e1 : out[g + 1]? = some X := by
    have := hwin 1 (by omega)
    simpa [get_replacement] using this
  have e2 : out[g + 2]? = some 0 := by
    have := hwin 2 (by omega)
    simpa [get_replacement] using this
  have e3 : out[g + 3]? = some 0 := by
    have := hwin 3 (by omega)
    simpa [get_replacement] using this
  have e4 : out[g + 4]? = some 0 := by
    have := hwin 4 (by omega)
    simpa [get_replacement] using this
  have e5 : out[g + 5]? = some 0x90 := by
    have := hwin 5 (by omega)
    simpa [get_replacement] using this
  have hdec : decodeLEAt out g = X := by
    simp only [decodeLEAt, List.getD_eq_getElem?_getD, e1, e2, e3, e4]
    simp
  have hw : windowValid out g := by
    refine ⟨?_, ?_, ?_, ?_⟩
    · simp [List.getD_eq_getElem?_getD, e0]
    · simp [List.getD_eq_getElem?_getD, e5]
    · omega
    · omega
  have := detectScan_found hw (out.length - 5) 0
    (by omega) (by omega) (fun j _ hj2 => hnone j hj2)
  simp only [detect_current_patch, this, hdec]

/-- Witness for the amended C4: patching the clean stub with raid 5 and
detecting it back. -/
theorem detect_roundtrip_witness :
    detect_current_patch
      (some [184, 5, 0, 0, 0, 144, 65, 199, 64, 4, 5, 0, 0, 0, 144, 144,
             144, 242, 15, 17, 76, 57, 192, 144, 144, 116, 16]) = some 5 :=
  detect_roundtrip_of_leftmost_window cleanStub 5 (by decide) (by decide)
    ⟨true, [("get_raid", 0), ("set_raid", 6), ("raid_status", 21)], []⟩
    [184, 5, 0, 0, 0, 144, 65, 199, 64, 4, 5, 0, 0, 0, 144, 144, 144, 242,
     15, 17, 76, 57, 192, 144, 144, 116, 16]
    (by decide) (by decide) 0 (by decide)
    (fun j hj => absurd hj (Nat.not_lt_zero j))

/-! ### C5: the detection scan hardcodes the 1..38 bound -/

/-- C5 counterexample.  Parameter 300 passes through serialize and embed —
`patch_executable` succeeds on the clean stub — but the detection scan
does **not** decode it back: `detect_current_patch` on the patched result
is `none`, because `detect_current_patch` only returns values inside the
hardcoded range `1..38` (backup.py line 115). -/
theorem detect_never_returns_300 :
    (patch_executable cleanStub 300).map
      (fun r => (r.1.success, detect_current_patch (some r.2))) =
      some (true, none) := by decide

/-- C5 amended.  The patching engine itself accepts parameter 300
(serialization and embedding succeed for any buffer), but the detection
scan hardcodes the application bound: every value it ever returns lies in
`1..38`, so 300 is never decoded back. -/
theorem detect_range_hardcoded :
    (∀ (file : Option (List Nat)) (v : Nat),
      detect_current_patch file = some v → 1 ≤ v ∧ v ≤ 38) ∧
    ∀ content : List Nat, (patch_executable content 300).isSome = true := by
  constructor
  · intro file v h
    cases file with
    | none => simp [detect_current_patch] at h
    | some exe_data => exact detectScan_range h
  · intro content
    have hser : serialize 300 = some (leBytes (300 : Int).toNat) := by decide
    rw [patch_executable_eq_foldl content 300 hser]
    rfl

/-- Witness for the amended C5: a returned detection value is in range,
and a concrete `patch_executable` call with 300 returns a result. -/
theorem detect_range_hardcoded_witness :
    ((1 : Nat) ≤ 2 ∧ (2 : Nat) ≤ 38) ∧
    (patch_executable [] 300).isSome = true :=
  ⟨detect_range_hardcoded.1 (some [0xB8, 2, 0, 0, 0, 0x90]) 2 (by decide),
   detect_range_hardcoded.2 []⟩

/-! ### C8: verification after one and after two patch runs -/

/-- The search window written by `get_raid` is still present verbatim in
the persisted file, so `verify_patch` succeeds for the parameter that was
just applied. -/
theorem verify_of_success (content : List Nat) (n : Int) (h0 : 0 ≤ n)
    (h1 : n < 4294967296) (res : PatchResult) (out : List Nat)
    (hp : patch_executable content n = some (res, out))
    (hs : res.success = true) : verify_patch (some out) n = true := by
  obtain ⟨g, hg, hlen, hg6, hwin⟩ := get_window_after content n h0 h1 hp hs
  have hser : serialize n = some (leBytes n.toNat) := by
    simp [serialize, h0, h1]
  have hplen : (List.map some ([0xB8] ++ leBytes n.toNat ++ [0x90]) :
      List Matcher).length = 6 := by
    simp [leBytes]
  have hrepl : ([0xB8] ++ leBytes n.toNat ++ [0x90] : List Nat) =
      get_replacement (leBytes n.toNat) := rfl
  have hreplen : (get_replacement (leBytes n.toNat)).length = 6 := rfl
  simp only [verify_patch, hser]
  apply findPattern_isSome g
  · rw [hplen]; omega
  · apply matchesFrom_of
    · simp only [List.length_drop, hplen]; omega
    · intro k b hk
      rw [List.getElem?_map] at hk
      have hk' : ([0xB8] ++ leBytes n.toNat ++ [0x90] : List Nat)[k]? =
          some b := by
        cases hx : ([0xB8] ++ leBytes n.toNat ++ [0x90] : List Nat)[k]? with
        | none => rw [hx] at hk; simp at hk
        | some c =>
          rw [hx] at hk
          have hcb : c = b := by simpa using hk
          rw [hcb]
      have hklt : k < 6 := by
        by_contra hge
        rw [List.getElem?_eq_none (by rw [hrepl, hreplen]; omega)] at hk'
        cases hk'
      rw [List.getElem?_drop]
      rw [hrepl] at hk'
      rw [hwin k hklt, hk']

/-- C8 counterexample.  On an image holding every signature twice,
applying raid 1 and then raid 2 both succeed, yet afterwards
`verify_patch` for the *old* parameter 1 still returns `true`: the window
written by the first run survives, so "last-applied parameter wins" fails
as stated. -/
theorem verify_stale_after_repatch :
    (patch_executable doubleStub 1).bind
      (fun r1 => (patch_executable r1.2 2).map
        (fun r2 => (r1.1.success, r2.1.success,
          verify_patch (some r2.2) 1))) = some (true, true, true) := by
  decide

/-- C8 amended.  `verify_patch(path, X)` is true immediately after a
successful `patch_executable(path, X)`; after a further successful
`patch_executable(path, Y)` on the same file, `verify_patch(path, Y)` is
true as well — but `verify_patch(path, X)` need not turn false, because
the first run's window can survive (see the counterexample), so only the
positive halves hold. -/
theorem verify_after_apply (content : List Nat) (X Y : Int)
    (hX0 : 0 ≤ X) (hX1 : X < 4294967296)
    (hY0 : 0 ≤ Y) (hY1 : Y < 4294967296)
    (res1 : PatchResult) (out1 : List Nat)
    (res2 : PatchResult) (out2 : List Nat)
    (hp1 : patch_executable content X = some (res1, out1))
    (hs1 : res1.success = true)
    (hp2 : patch_executable out1 Y = some (res2, out2))
    (hs2 : res2.success = true) :
    verify_patch (some out1) X = true ∧ verify_patch (some out2) Y = true :=
  ⟨verify_of_success content X hX0 hX1 res1 out1 hp1 hs1,
   verify_of_success out1 Y hY0 hY1 res2 out2 hp2 hs2⟩

/-- Witness for the amended C8: raid 3 then raid 4 on the double stub. -/
theorem verify_after_apply_witness :
    verify_patch
      (some [184, 3, 0, 0, 0, 144, 65, 199, 64, 4, 3, 0, 0, 0, 144, 144,
             144, 242, 15, 17, 76, 57, 192, 144, 144, 116, 16, 139, 129,
             196, 83, 29, 0, 102, 15, 115, 218, 8, 102, 65, 15, 126, 80, 4,
             242, 15, 17, 76, 131, 120, 16, 2, 116, 16]) 3 = true ∧
    verify_patch
      (some [184, 3, 0, 0, 0, 144, 65, 199, 64, 4, 3, 0, 0, 0, 144, 144,
             144, 242, 15, 17, 76, 57, 192, 144, 144, 116, 16, 184, 4, 0,
             0, 0, 144, 65, 199, 64, 4, 4, 0, 0, 0, 144, 144, 144, 242, 15,
             17, 76, 57, 192, 144, 144, 116, 16]) 4 = true :=
  verify_after_apply doubleStub 3 4 (by decide) (by decide) (by decide)
    (by decide)
    ⟨true, [("get_raid", 0), ("set_raid", 6), ("raid_status", 21)], []⟩
    [184, 3, 0, 0, 0, 144, 65, 199, 64, 4, 3, 0, 0, 0, 144, 144, 144, 242,
     15, 17, 76, 57, 192, 144, 144, 116, 16, 139, 129, 196, 83, 29, 0, 102,
     15, 115, 218, 8, 102, 65, 15, 126, 80, 4, 242, 15, 17, 76, 131, 120,
     16, 2, 116, 16]
    ⟨true, [("get_raid", 27), ("set_raid", 33), ("raid_status", 48)], []⟩
    [184, 3, 0, 0, 0, 144, 65, 199, 64, 4, 3, 0, 0, 0, 144, 144, 144, 242,
     15, 17, 76, 57, 192, 144, 144, 116, 16, 184, 4, 0, 0, 0, 144, 65, 199,
     64, 4, 4, 0, 0, 0, 144, 144, 144, 242, 15, 17, 76, 57, 192, 144, 144,
     116, 16]
    (by decide) (by decide) (by decide) (by decide)

/-! ### C9: read-only operations swallow errors -/

/-- C9.  The read-only operations mutate nothing (they are pure functions
of the file contents in this model) and swallow failures into their
negative results: on a missing/unreadable file `verify_patch` returns
`False` and `detect_current_patch` returns `None`; a serialization
overflow inside `verify_patch` is likewise caught and yields `False`
rather than an exception. -/
theorem readonly_ops_swallow_errors :
    (∀ n : Int, verify_patch none n = false) ∧
    detect_current_patch none = none ∧
    ∀ (exe_data : List Nat) (n : Int), ¬ (0 ≤ n ∧ n < 4294967296) →
      verify_patch (some exe_data) n = false := by
  refine ⟨fun n => rfl, rfl, fun exe_data n h => ?_⟩
  simp [verify_patch, serialize, h]

/-- Witness for C9 at concrete inputs. -/
theorem readonly_ops_swallow_errors_witness :
    verify_patch none 5 = false ∧
    verify_patch (some [1, 2, 3]) (-1) = false :=
  ⟨readonly_ops_swallow_errors.1 5,
   readonly_ops_swallow_errors.2.2 [1, 2, 3] (-1) (by omega)⟩

end DBFZ
